import Mathlib

/-!
# Verification of `fixrg.py`

A shallow embedding of the read-group rewriting script `fixrg.py` and proofs
of its specified properties.  Python strings are modelled as `List Char`,
Python dicts (ordered, unique keys, insertion order preserved) as association
lists, BAM records as a name plus a tag dictionary, and the BAM header as an
association list from section name to a list of attribute dictionaries.
-/

/-- Python strings are modelled as lists of characters. -/
abbrev Str := List Char

/-- An ordered string-keyed mapping with string values (a Python dict whose
keys are unique and whose iteration order is insertion order). -/
abbrev Dict := List (Str × Str)

/-- Generic association-list lookup (Python `d.get(k)` / `k in d`). -/
def assocGet? {β : Type} : List (Str × β) → Str → Option β
  | [], _ => none
  | (k', v) :: t, k => if k' = k then some v else assocGet? t k

/-- Python `d.get(k, dflt)`. -/
def assocGetD {β : Type} (d : List (Str × β)) (k : Str) (dflt : β) : β :=
  (assocGet? d k).getD dflt

/-- Python `k in d`. -/
def assocMem {β : Type} (d : List (Str × β)) (k : Str) : Bool :=
  (assocGet? d k).isSome

/-- Python `d[k] = v`: replace the value in place if the key is present
(keeping its position), otherwise append the new binding at the end. -/
def assocSet {β : Type} : List (Str × β) → Str → β → List (Str × β)
  | [], k, v => [(k, v)]
  | (k', v') :: t, k, v =>
    if k' = k then (k, v) :: t else (k', v') :: assocSet t k v

/-- Python `del d[k]` (keys are unique, so removing the first match suffices). -/
def assocErase {β : Type} : List (Str × β) → Str → List (Str × β)
  | [], _ => []
  | (k', v') :: t, k => if k' = k then t else (k', v') :: assocErase t k

/-- The values of a mapping, in iteration order (Python `d.values()`). -/
def valuesOf {β : Type} (d : List (Str × β)) : List β := d.map Prod.snd

/-- Python `sub in s`: does `sub` occur as a contiguous substring of `s`? -/
def containsSub : Str → Str → Bool
  | s, sub =>
    if sub.isPrefixOf s then true
    else
      match s with
      | [] => false
      | _ :: s' => containsSub s' sub

/-- Scanner for Python `s.replace(sub, repl)` with a non-empty pattern: walk
the string left to right; on a match emit `repl` once and skip the remaining
`sub.length - 1` matched characters (the skip counter keeps the recursion
structural), so occurrences are replaced non-overlappingly. -/
def pyReplaceAux (sub repl : Str) : Str → Nat → Str
  | [], _ => []
  | _ :: s, Nat.succ n => pyReplaceAux sub repl s n
  | c :: s, 0 =>
    if !sub.isEmpty && sub.isPrefixOf (c :: s) then
      repl ++ pyReplaceAux sub repl s (sub.length - 1)
    else
      c :: pyReplaceAux sub repl s 0

/-- Python `s.replace(sub, repl)` for a non-empty pattern `sub`.  (The script
only ever calls this with the literal patterns `"[FLOWCELL]"` and `"[LANE]"`,
both non-empty, so Python's empty-pattern behaviour is irrelevant and the
scan leaves the string unchanged for an empty pattern here.) -/
def pyReplace (sub repl s : Str) : Str := pyReplaceAux sub repl s 0

/-- Python `s.split(sep)` (never returns an empty list; splitting the empty
string yields `[""]`). -/
def pySplit (sep : Char) : Str → List Str
  | [] => [[]]
  | c :: s =>
    if c = sep then [] :: pySplit sep s
    else
      match pySplit sep s with
      | [] => [[c]]
      | t :: ts => (c :: t) :: ts

/-- Joining a list of fields with a separator (the left inverse of `pySplit`
on separator-free fields); used to state the tokenizer claim. -/
def joinSep (sep : Char) : List Str → Str
  | [] => []
  | [f] => f
  | f :: fs => f ++ sep :: joinSep sep fs

/-- The placeholder literal `"[FLOWCELL]"`. -/
def phFlowcell : Str := "[FLOWCELL]".data

/-- The placeholder literal `"[LANE]"`. -/
def phLane : Str := "[LANE]".data

/-- Attribute key `"ID"`. -/
def strID : Str := "ID".data

/-- Attribute key `"LB"`. -/
def strLB : Str := "LB".data

/-- Attribute key `"SM"`. -/
def strSM : Str := "SM".data

/-- Tag name `"RG"`. -/
def strRG : Str := "RG".data

/-- Header section name `"PG"`. -/
def strPG : Str := "PG".data

/-- The sentinel count bucket `"None"`. -/
def strNone : Str := "None".data

/-- `get_flowcell_lane` (fixrg.py lines 44-49): split the read name on
`':'`; with at least 4 fields return fields 2 and 3, otherwise the fixed
fallback pair. -/
def get_flowcell_lane (read_name : Str) : Str × Str :=
  let parts := pySplit ':' read_name
  if h : 4 ≤ parts.length then
    (parts.get ⟨2, by omega⟩, parts.get ⟨3, by omega⟩)
  else
    ("unknown_fc".data, "unknown_lane".data)

/-- `resolve_rg` (fixrg.py lines 51-60): copy the template and substitute the
placeholders in every value (the `in` guards before each `replace` are kept
from the source; for the second guard the first substitution has already been
applied to `v`). -/
def resolve_rg (rg_template : Dict) (flowcell lane : Str) : Dict :=
  rg_template.map (fun kv =>
    let v := kv.2
    let v := if containsSub v phFlowcell then pyReplace phFlowcell flowcell v else v
    let v := if containsSub v phLane then pyReplace phLane lane v else v
    (kv.1, v))

/-- A BAM record, reduced to the fields the script reads: the read name and
the key/value tags (all tag values modelled as strings, so Python's
`str(current_lb)` is the identity). -/
structure Record where
  query_name : Str
  tags : Dict
deriving DecidableEq

/-- The library-preservation index (fixrg.py lines 82-84): for each header
read-group entry carrying both `ID` and `LB`, map the `ID` to the `LB`. -/
def buildRgToLb (headerRG : List Dict) : Dict :=
  headerRG.foldl
    (fun acc e =>
      if assocMem e strID && assocMem e strLB then
        assocSet acc (assocGetD e strID []) (assocGetD e strLB [])
      else acc)
    []

/-- `current_lb` as computed in the first pass (fixrg.py lines 89-94): under
`--preserve-LB`, prefer the record's own `LB` tag, else look its `RG` tag up
in the index; `none` when neither applies. -/
def currentLB (preserve_lb : Bool) (rg_to_lb : Dict) (r : Record) : Option Str :=
  if preserve_lb then
    match assocGet? r.tags strLB with
    | some lb => some lb
    | none =>
      match assocGet? r.tags strRG with
      | some rg => assocGet? rg_to_lb rg
      | none => none
  else none

/-- The per-template body of the first-pass loop (fixrg.py lines 96-105):
resolve the template, apply the `LB`-set / `ID`-suffix rewrite when a current
library is known, then upsert into `final_rgs` when the result has an `ID`. -/
def pass1Insert (final : List (Str × Dict)) (template : Dict) (fc lane : Str)
    (lb? : Option Str) : List (Str × Dict) :=
  let resolved := resolve_rg template fc lane
  let resolved :=
    match lb? with
    | none => resolved
    | some lb =>
      let r1 := assocSet resolved strLB lb
      match assocGet? r1 strID with
      | some i => assocSet r1 strID (i ++ '.' :: lb)
      | none => assocSet r1 strID lb
  match assocGet? resolved strID with
  | some i => assocSet final i resolved
  | none => final

/-- One first-pass record (fixrg.py lines 86-105): tokenize the name, derive
`current_lb`, and run `pass1Insert` for every template in order. -/
def pass1Step (preserve_lb : Bool) (rg_to_lb : Dict) (rgs_data : List Dict)
    (final : List (Str × Dict)) (r : Record) : List (Str × Dict) :=
  let fl := get_flowcell_lane r.query_name
  let lb? := currentLB preserve_lb rg_to_lb r
  rgs_data.foldl (fun acc t => pass1Insert acc t fl.1 fl.2 lb?) final

/-- The whole first pass: stream the records once, accumulating `final_rgs`
from the empty mapping. -/
def pass1 (preserve_lb : Bool) (rg_to_lb : Dict) (rgs_data : List Dict)
    (records : List Record) : List (Str × Dict) :=
  records.foldl (pass1Step preserve_lb rg_to_lb rgs_data) []

/-- Placeholder detection (fixrg.py lines 66-71): some template value
contains `[FLOWCELL]` or `[LANE]`. -/
def hasPlaceholders (rgs_data : List Dict) : Bool :=
  rgs_data.any (fun rg =>
    rg.any (fun kv => containsSub kv.2 phFlowcell || containsSub kv.2 phLane))

/-- The no-first-pass construction of `final_rgs` (fixrg.py lines 106-109):
each template owning an `ID` becomes one entry keyed by it. -/
def buildFinalNoPass1 (rgs_data : List Dict) : List (Str × Dict) :=
  rgs_data.foldl
    (fun acc rg =>
      match assocGet? rg strID with
      | some i => assocSet acc i rg
      | none => acc)
    []

/-- Lexicographic string comparison (Python `<=` on `str`), used by the
header sort. -/
def strLeb : Str → Str → Bool
  | [], _ => true
  | _ :: _, [] => false
  | a :: s, b :: t => if a < b then true else if b < a then false else strLeb s t

/-- The sort key of fixrg.py line 120: `(x.get('SM',''), x.get('LB',''),
x.get('ID',''))`. -/
def sortKey (d : Dict) : Str × Str × Str :=
  (assocGetD d strSM [], assocGetD d strLB [], assocGetD d strID [])

/-- Lexicographic comparison of sort-key triples (Python tuple `<=`). -/
def tripLeb (p q : Str × Str × Str) : Bool :=
  if p.1 = q.1 then
    if p.2.1 = q.2.1 then strLeb p.2.2 q.2.2 else strLeb p.2.1 q.2.1
  else strLeb p.1 q.1

/-- `sorted(final_rgs.values(), key=...)` (fixrg.py line 120), as a stable
sort by the tuple key. -/
def sortedRGs (final : List (Str × Dict)) : List Dict :=
  List.insertionSort (fun x y => tripLeb (sortKey x) (sortKey y) = true)
    (valuesOf final)

/-- The header rewrite (fixrg.py lines 112-122): reset the `RG` section,
drop `PG` when `--strip-PG` was given and the section exists, then fill `RG`
with the sorted final read groups. -/
def rewriteHeader (header : List (Str × List Dict)) (final : List (Str × Dict))
    (strip_pg : Bool) : List (Str × List Dict) :=
  let h := assocSet header strRG []
  let h := if strip_pg && assocMem h strPG then assocErase h strPG else h
  assocSet h strRG (sortedRGs final)

/-- The candidate `ID` of the second pass (fixrg.py lines 132-158).  The
source re-states the first-pass resolution code here for the first template
only; the block is transcribed again rather than shared, mirroring the
duplication in the script. -/
def pass2Candidate (need_pass1 preserve_lb : Bool) (rg_to_lb : Dict)
    (rgs_data : List Dict) (r : Record) : Option Str :=
  if need_pass1 then
    match rgs_data with
    | [] => none
    | t0 :: _ =>
      let fl := get_flowcell_lane r.query_name
      let lb? : Option Str :=
        if preserve_lb then
          match assocGet? r.tags strLB with
          | some lb => some lb
          | none =>
            match assocGet? r.tags strRG with
            | some rg => assocGet? rg_to_lb rg
            | none => none
        else none
      let resolved := resolve_rg t0 fl.1 fl.2
      let resolved :=
        match lb? with
        | none => resolved
        | some lb =>
          let r1 := assocSet resolved strLB lb
          match assocGet? r1 strID with
          | some i => assocSet r1 strID (i ++ '.' :: lb)
          | none => assocSet r1 strID lb
      assocGet? resolved strID
  else
    match rgs_data with
    | [] => none
    | t0 :: _ => assocGet? t0 strID

/-- The tag assignment of the second pass (fixrg.py lines 160-161): Python's
`if rg_id:` writes the tag only for a truthy — present and non-empty —
candidate. -/
def pass2Step (need_pass1 preserve_lb : Bool) (rg_to_lb : Dict)
    (rgs_data : List Dict) (r : Record) : Record :=
  match pass2Candidate need_pass1 preserve_lb rg_to_lb rgs_data r with
  | some i => if i ≠ [] then { r with tags := assocSet r.tags strRG i } else r
  | none => r

/-- The count bucket of a record after assignment (fixrg.py line 164): its
`RG` tag, or the sentinel `"None"`. -/
def countKeyOf (r : Record) : Str :=
  match assocGet? r.tags strRG with
  | some v => v
  | none => strNone

/-- `counts[rg_id] += 1` on a `defaultdict(int)`: first access inserts the
bucket at the end, so iteration order is first-seen order. -/
def bump (counts : List (Str × Nat)) (k : Str) : List (Str × Nat) :=
  assocSet counts k (assocGetD counts k 0 + 1)

/-- The second pass (fixrg.py lines 130-167): assign, count, and write each
record, in source order. -/
def pass2 (need_pass1 preserve_lb : Bool) (rg_to_lb : Dict)
    (rgs_data : List Dict) (records : List Record) :
    List Record × List (Str × Nat) :=
  records.foldl
    (fun acc r =>
      let r' := pass2Step need_pass1 preserve_lb rg_to_lb rgs_data r
      (acc.1 ++ [r'], bump acc.2 (countKeyOf r')))
    ([], [])

/-- `process_bam` (fixrg.py lines 62-171), with the container collaborator
abstracted away: the input is the parsed header and the record stream (read
in the same order by both passes), the output is the rewritten header, the
written records and the count summary. -/
def process_bam (header : List (Str × List Dict)) (records : List Record)
    (rgs_data : List Dict) (preserve_lb strip_pg : Bool) :
    List (Str × List Dict) × List Record × List (Str × Nat) :=
  let need_pass1 := hasPlaceholders rgs_data || preserve_lb
  let rg_to_lb :=
    if need_pass1 && preserve_lb then buildRgToLb (assocGetD header strRG [])
    else []
  let final :=
    if need_pass1 then pass1 preserve_lb rg_to_lb rgs_data records
    else buildFinalNoPass1 rgs_data
  let newHeader := rewriteHeader header final strip_pg
  let out := pass2 need_pass1 preserve_lb rg_to_lb rgs_data records
  (newHeader, out.1, out.2)

/-- `tag_str.split(':', 1)` guarded by `':' in tag_str` (fixrg.py lines
189-190): `none` when the string holds no colon, otherwise the split at the
first colon only. -/
def splitOnceColon : Str → Option (Str × Str)
  | [] => none
  | c :: s =>
    if c = ':' then some ([], s)
    else
      match splitOnceColon s with
      | some kv => some (c :: kv.1, kv.2)
      | none => none

/-- The `extra_tags` dict of `main` (fixrg.py lines 187-191): overrides
lacking a colon are skipped silently. -/
def buildExtraTags (tag_strs : List Str) : Dict :=
  tag_strs.foldl
    (fun acc t =>
      match splitOnceColon t with
      | some kv => assocSet acc kv.1 kv.2
      | none => acc)
    []

/-- Python `rg.update(extra_tags)`. -/
def dictUpdate (rg extra : Dict) : Dict :=
  extra.foldl (fun acc kv => assocSet acc kv.1 kv.2) rg

/-- The template-override merge of `main` (fixrg.py lines 186-193); argparse
yields no list when `--tag` is never given, modelled as the empty list, which
is falsy exactly like Python's `None`/`[]`. -/
def applyTagOverrides (tag_strs : List Str) (rgs_data : List Dict) : List Dict :=
  if tag_strs = [] then rgs_data
  else rgs_data.map (fun rg => dictUpdate rg (buildExtraTags tag_strs))

/-! ## Association-list lemmas -/

theorem assocGet?_nil {β : Type} (k : Str) : assocGet? ([] : List (Str × β)) k = none := rfl

theorem assocGet?_cons {β : Type} (k₀ k : Str) (v₀ : β) (t : List (Str × β)) :
    assocGet? ((k₀, v₀) :: t) k = if k₀ = k then some v₀ else assocGet? t k := rfl

theorem assocSet_nil {β : Type} (k : Str) (v : β) : assocSet [] k v = [(k, v)] := rfl

theorem assocSet_cons {β : Type} (k₀ k : Str) (v₀ v : β) (t : List (Str × β)) :
    assocSet ((k₀, v₀) :: t) k v =
      if k₀ = k then (k, v) :: t else (k₀, v₀) :: assocSet t k v := rfl

theorem assocErase_cons {β : Type} (k₀ k : Str) (v₀ : β) (t : List (Str × β)) :
    assocErase ((k₀, v₀) :: t) k = if k₀ = k then t else (k₀, v₀) :: assocErase t k := rfl

theorem assocGet?_assocSet_self {β : Type} (d : List (Str × β)) (k : Str) (v : β) :
    assocGet? (assocSet d k v) k = some v := by
  induction d with
  | nil => simp [assocSet, assocGet?]
  | cons p t ih =>
    obtain ⟨k', v'⟩ := p
    by_cases h : k' = k
    · simp [assocSet, assocGet?, h]
    · simp [assocSet, assocGet?, h, ih]

theorem assocGet?_assocSet_ne {β : Type} (d : List (Str × β)) (k k' : Str) (v : β)
    (h : k' ≠ k) : assocGet? (assocSet d k' v) k = assocGet? d k := by
  induction d with
  | nil => simp [assocSet, assocGet?, h]
  | cons p t ih =>
    obtain ⟨k₀, v₀⟩ := p
    by_cases h0 : k₀ = k'
    · subst h0
      simp [assocSet, assocGet?, h]
    · simp only [assocSet, if_neg h0, assocGet?]
      by_cases h1 : k₀ = k
      · simp [h1]
      · simp [h1, ih]

theorem mem_assocSet {β : Type} {d : List (Str × β)} {k : Str} {v : β} {p : Str × β}
    (h : p ∈ assocSet d k v) : p = (k, v) ∨ p ∈ d := by
  induction d with
  | nil => simpa [assocSet] using h
  | cons q t ih =>
    obtain ⟨k₀, v₀⟩ := q
    by_cases h0 : k₀ = k
    · simp only [assocSet, if_pos h0] at h
      rcases List.mem_cons.mp h with h | h
      · exact Or.inl h
      · exact Or.inr (List.mem_cons_of_mem _ h)
    · simp only [assocSet, if_neg h0] at h
      rcases List.mem_cons.mp h with h | h
      · exact Or.inr (h ▸ List.mem_cons_self _ _)
      · rcases ih h with h | h
        · exact Or.inl h
        · exact Or.inr (List.mem_cons_of_mem _ h)

theorem isSome_assocGet?_assocSet {β : Type} (d : List (Str × β)) (k k' : Str) (v : β)
    (h : (assocGet? d k).isSome) : (assocGet? (assocSet d k' v) k).isSome := by
  by_cases hk : k' = k
  · subst hk
    simp [assocGet?_assocSet_self]
  · rwa [assocGet?_assocSet_ne _ _ _ _ hk]

theorem pairwiseKeys_assocSet {β : Type} {d : List (Str × β)} (k : Str) (v : β)
    (h : d.Pairwise (fun p q => p.1 ≠ q.1)) :
    (assocSet d k v).Pairwise (fun p q => p.1 ≠ q.1) := by
  induction d with
  | nil => simp [assocSet]
  | cons q t ih =>
    obtain ⟨k₀, v₀⟩ := q
    rcases List.pairwise_cons.mp h with ⟨hhead, htail⟩
    by_cases h0 : k₀ = k
    · subst h0
      simp only [assocSet, if_pos rfl]
      exact List.pairwise_cons.mpr ⟨hhead, htail⟩
    · simp only [assocSet, if_neg h0]
      refine List.pairwise_cons.mpr ⟨?_, ih htail⟩
      intro p hp
      rcases mem_assocSet hp with rfl | hp
      · exact h0
      · exact hhead p hp

theorem assocGet?_eq_some_mem {β : Type} {d : List (Str × β)} {k : Str} {v : β}
    (h : assocGet? d k = some v) : (k, v) ∈ d := by
  induction d with
  | nil => simp [assocGet?] at h
  | cons q t ih =>
    obtain ⟨k₁, v₁⟩ := q
    by_cases h1 : k₁ = k
    · subst h1
      rw [assocGet?_cons, if_pos rfl] at h
      simp only [Option.some.injEq] at h
      rw [← h]
      exact List.mem_cons_self _ _
    · rw [assocGet?_cons, if_neg h1] at h
      exact List.mem_cons_of_mem _ (ih h)

theorem assocGet?_assocErase_ne {β : Type} (d : List (Str × β)) (k k' : Str)
    (h : k' ≠ k) : assocGet? (assocErase d k') k = assocGet? d k := by
  induction d with
  | nil => simp [assocErase]
  | cons p t ih =>
    obtain ⟨k₀, v₀⟩ := p
    by_cases h0 : k₀ = k'
    · have hk : k₀ ≠ k := h0 ▸ h
      simp [assocErase, if_pos h0, assocGet?, hk]
    · simp only [assocErase, if_neg h0, assocGet?]
      by_cases h1 : k₀ = k
      · simp [h1]
      · simp [h1, ih]

theorem assocGet?_assocErase_self {β : Type} (d : List (Str × β)) (k : Str)
    (hnd : d.Pairwise (fun p q => p.1 ≠ q.1)) :
    assocGet? (assocErase d k) k = none := by
  induction d with
  | nil => simp [assocErase, assocGet?]
  | cons p t ih =>
    obtain ⟨k₀, v₀⟩ := p
    rcases List.pairwise_cons.mp hnd with ⟨hhead, htail⟩
    by_cases h0 : k₀ = k
    · subst h0
      rw [assocErase_cons, if_pos rfl]
      cases hg : assocGet? t k₀ with
      | none => rfl
      | some w => exact ((hhead (k₀, w) (assocGet?_eq_some_mem hg)) rfl).elim
    · rw [assocErase_cons, if_neg h0, assocGet?_cons, if_neg h0]
      exact ih htail

/-! ## Claim C3 -/

/-- C3: with an input header read group `{ID: "rg1", LB: "libX"}`, a record
tagged `RG=rg1` carrying no own `LB` tag, the single template `{ID: "new"}`,
and library preservation enabled, the record's final assignment is
`ID = "new.libX"` and the resolved mapping registered for it (and emitted in
the header) has `LB = "libX"`. -/
theorem claim_C3_library_preservation_composition :
    (let header : List (Str × List Dict) := [(strRG, [[(strID, "rg1".data), (strLB, "libX".data)]])]
     let r : Record := ⟨"n1".data, [(strRG, "rg1".data)]⟩
     let rgs : List Dict := [[(strID, "new".data)]]
     let out := process_bam header [r] rgs true false
     (out.2.1.map (fun x => assocGet? x.tags strRG) = [some "new.libX".data]) ∧
       assocGet? (pass1 true (buildRgToLb (assocGetD header strRG [])) rgs [r]) "new.libX".data =
         some [(strID, "new.libX".data), (strLB, "libX".data)] ∧
       assocGet? out.1 strRG = some [[(strID, "new.libX".data), (strLB, "libX".data)]]) := by
  decide

/-! ## Claim C8 -/

theorem pySplit_ne_nil (sep : Char) (s : Str) : pySplit sep s ≠ [] := by
  induction s with
  | nil => simp [pySplit]
  | cons c s ih =>
    by_cases h : c = sep
    · simp [pySplit, h]
    · simp only [pySplit, if_neg h]
      cases hps : pySplit sep s with
      | nil => simp
      | cons t ts => simp

theorem sep_not_mem_pySplit (sep : Char) (s : Str) : ∀ f ∈ pySplit sep s, sep ∉ f := by
  induction s with
  | nil =>
    intro f hf
    simp only [pySplit, List.mem_singleton] at hf
    simp [hf]
  | cons c s ih =>
    intro f hf
    by_cases h : c = sep
    · simp only [pySplit, if_pos h, List.mem_cons] at hf
      rcases hf with rfl | hf
      · simp
      · exact ih f hf
    · simp only [pySplit, if_neg h] at hf
      cases hps : pySplit sep s with
      | nil => exact absurd hps (pySplit_ne_nil sep s)
      | cons t ts =>
        rw [hps] at hf
        rcases List.mem_cons.mp hf with rfl | hf
        · intro hmem
          rcases List.mem_cons.mp hmem with rfl | hmem
          · exact h rfl
          · exact ih t (hps ▸ List.mem_cons_self _ _) hmem
        · exact ih f (hps ▸ List.mem_cons_of_mem _ hf)

theorem joinSep_cons (sep : Char) (f : Str) (fs : List Str) (h : fs ≠ []) :
    joinSep sep (f :: fs) = f ++ sep :: joinSep sep fs := by
  cases fs with
  | nil => exact absurd rfl h
  | cons g gs => rfl

theorem joinSep_pySplit (sep : Char) (s : Str) : joinSep sep (pySplit sep s) = s := by
  induction s with
  | nil => rfl
  | cons c s ih =>
    by_cases h : c = sep
    · rw [pySplit, if_pos h,
        joinSep_cons sep [] (pySplit sep s) (pySplit_ne_nil sep s), ih, h]
      rfl
    · rw [pySplit, if_neg h]
      cases hps : pySplit sep s with
      | nil => exact absurd hps (pySplit_ne_nil sep s)
      | cons t ts =>
        rw [hps] at ih
        cases ts with
        | nil =>
          simp only [joinSep] at ih ⊢
          rw [ih]
        | cons u us =>
          rw [joinSep_cons sep (c :: t) (u :: us) (by simp)]
          have : t ++ sep :: joinSep sep (u :: us) = s := by
            rw [← joinSep_cons sep t (u :: us) (by simp), ih]
          rw [List.cons_append, this]

/-- C8: the tokenizer really splits the name on `':'` (the fields carry no
separator and joining them restores the name); with at least four fields it
returns fields 2 and 3, and with fewer it returns the fixed fallback pair.
It is a total function, hence deterministic and never failing. -/
theorem claim_C8_tokenizer_splits_and_falls_back (name : Str) :
    pySplit ':' name ≠ [] ∧
    (∀ f ∈ pySplit ':' name, ':' ∉ f) ∧
    joinSep ':' (pySplit ':' name) = name ∧
    (∀ h4 : 4 ≤ (pySplit ':' name).length,
        get_flowcell_lane name =
          ((pySplit ':' name).get ⟨2, by omega⟩, (pySplit ':' name).get ⟨3, by omega⟩)) ∧
    ((pySplit ':' name).length < 4 →
        get_flowcell_lane name = ("unknown_fc".data, "unknown_lane".data)) := by
  refine ⟨pySplit_ne_nil ':' name, sep_not_mem_pySplit ':' name, joinSep_pySplit ':' name,
    ?_, ?_⟩
  · intro h4
    rw [get_flowcell_lane]
    simp only [dif_pos h4]
  · intro h4
    rw [get_flowcell_lane]
    simp only [dif_neg (by omega : ¬ 4 ≤ (pySplit ':' name).length)]

/-- Witness for C8: a well-formed five-field name tokenizes to its third and
fourth fields, and a name without colons degrades to the fallback pair. -/
theorem claim_C8_tokenizer_splits_and_falls_back_witness :
    get_flowcell_lane "a:b:c:d:e".data = ("c".data, "d".data) ∧
    get_flowcell_lane "readA".data = ("unknown_fc".data, "unknown_lane".data) := by
  constructor
  · have h := (claim_C8_tokenizer_splits_and_falls_back ("a:b:c:d:e".data)).2.2.2.1 (by decide)
    rw [h]
    decide
  · exact (claim_C8_tokenizer_splits_and_falls_back ("readA".data)).2.2.2.2 (by decide)

/-! ## Claim C2 -/

/-- C2: when a first pass is needed and at least one template exists, the
candidate `ID` computed by the second pass for a record equals the `ID` of
the mapping the first pass obtains by resolving the first template against
the same record (the key of the entry it upserts; `none` exactly when the
first pass upserts nothing for the first template).  Tokenization, the
`currentLB` derivation and the `LB`-set/`ID`-suffix rewrite agree between
the two transcriptions of the code. -/
theorem claim_C2_second_pass_matches_first_pass (preserve_lb : Bool) (rg_to_lb : Dict)
    (t0 : Dict) (ts : List Dict) (r : Record) :
    pass2Candidate true preserve_lb rg_to_lb (t0 :: ts) r =
      ((pass1Insert [] t0 (get_flowcell_lane r.query_name).1 (get_flowcell_lane r.query_name).2
          (currentLB preserve_lb rg_to_lb r)).head?).map Prod.fst := by
  simp only [pass2Candidate, pass1Insert, currentLB]
  cases preserve_lb with
  | false =>
    cases hg : assocGet? (resolve_rg t0 (get_flowcell_lane r.query_name).1
        (get_flowcell_lane r.query_name).2) strID <;>
      simp [hg, assocSet_nil]
  | true =>
    cases hlb : assocGet? r.tags strLB with
    | some lb =>
      cases hgi : assocGet? (assocSet (resolve_rg t0 (get_flowcell_lane r.query_name).1
          (get_flowcell_lane r.query_name).2) strLB lb) strID with
      | some i => simp [hlb, hgi, assocGet?_assocSet_self, assocSet_nil]
      | none => simp [hlb, hgi, assocGet?_assocSet_self, assocSet_nil]
    | none =>
      cases hrg : assocGet? r.tags strRG with
      | some rg =>
        cases hl2 : assocGet? rg_to_lb rg with
        | some lb =>
          cases hgi : assocGet? (assocSet (resolve_rg t0 (get_flowcell_lane r.query_name).1
              (get_flowcell_lane r.query_name).2) strLB lb) strID with
          | some i => simp [hlb, hrg, hl2, hgi, assocGet?_assocSet_self, assocSet_nil]
          | none => simp [hlb, hrg, hl2, hgi, assocGet?_assocSet_self, assocSet_nil]
        | none =>
          cases hg : assocGet? (resolve_rg t0 (get_flowcell_lane r.query_name).1
              (get_flowcell_lane r.query_name).2) strID <;>
            simp [hlb, hrg, hl2, hg, assocSet_nil]
      | none =>
        cases hg : assocGet? (resolve_rg t0 (get_flowcell_lane r.query_name).1
            (get_flowcell_lane r.query_name).2) strID <;>
          simp [hlb, hrg, hg, assocSet_nil]

/-! ## Claim C5 -/

theorem sum_bump (counts : List (Str × Nat)) (k : Str) :
    ((bump counts k).map Prod.snd).sum = ((counts.map Prod.snd)).sum + 1 := by
  induction counts with
  | nil => simp [bump, assocGetD, assocGet?_nil, assocSet_nil]
  | cons p t ih =>
    obtain ⟨k₀, v₀⟩ := p
    by_cases h : k₀ = k
    · simp [bump, assocGetD, assocGet?_cons, assocSet_cons, h]
      omega
    · simp only [bump, assocGetD, assocGet?_cons, assocSet_cons, if_neg h, List.map_cons,
        List.sum_cons]
      have := ih
      simp only [bump, assocGetD] at this
      omega

theorem pass2_foldl_measure (need_pass1 preserve_lb : Bool) (rg_to_lb : Dict)
    (rgs_data : List Dict) (records : List Record) :
    ∀ acc : List Record × List (Str × Nat),
      (records.foldl
        (fun acc r =>
          let r' := pass2Step need_pass1 preserve_lb rg_to_lb rgs_data r
          (acc.1 ++ [r'], bump acc.2 (countKeyOf r')))
        acc).1.length = acc.1.length + records.length ∧
      ((records.foldl
        (fun acc r =>
          let r' := pass2Step need_pass1 preserve_lb rg_to_lb rgs_data r
          (acc.1 ++ [r'], bump acc.2 (countKeyOf r')))
        acc).2.map Prod.snd).sum = (acc.2.map Prod.snd).sum + records.length := by
  induction records with
  | nil => intro acc; simp
  | cons r rest ih =>
    intro acc
    rcases ih (acc.1 ++ [pass2Step need_pass1 preserve_lb rg_to_lb rgs_data r],
      bump acc.2 (countKeyOf (pass2Step need_pass1 preserve_lb rg_to_lb rgs_data r))) with ⟨h1, h2⟩
    dsimp only at h1 h2
    constructor
    · simp only [List.foldl_cons, List.length_cons]
      rw [h1]
      simp only [List.length_append, List.length_singleton]
      omega
    · simp only [List.foldl_cons, List.length_cons]
      rw [h2, sum_bump]
      omega

/-- C5: after the output pass, the sum of all `AssignmentCounts` values
equals the number of source records, and every record is written to the
output exactly once (the output stream has the same length). -/
theorem claim_C5_count_conservation (need_pass1 preserve_lb : Bool) (rg_to_lb : Dict)
    (rgs_data : List Dict) (records : List Record) :
    (((pass2 need_pass1 preserve_lb rg_to_lb rgs_data records).2.map Prod.snd).sum
        = records.length) ∧
    (pass2 need_pass1 preserve_lb rg_to_lb rgs_data records).1.length = records.length := by
  rcases pass2_foldl_measure need_pass1 preserve_lb rg_to_lb rgs_data records ([], []) with ⟨h1, h2⟩
  constructor
  · simpa [pass2] using h2
  · simpa [pass2] using h1

/-! ## Claim C9 -/

/-- C9: a truthiness mismatch is latent in the script: `if rg_id:` skips the
tag assignment when the candidate `ID` is the empty string (so no record's
`RG` tag is ever set to the empty string), yet first-pass registration uses
`'ID' in resolved`, so a mapping whose `ID` is the empty string is still
registered in the final set and emitted as a header `RG` entry. -/
theorem claim_C9_empty_id_never_assigned (need_pass1 preserve_lb : Bool) (rg_to_lb : Dict)
    (rgs_data : List Dict) (r : Record)
    (h : pass2Candidate need_pass1 preserve_lb rg_to_lb rgs_data r = some []) :
    pass2Step need_pass1 preserve_lb rg_to_lb rgs_data r = r ∧
    buildFinalNoPass1 [[(strID, [])]] = [([], [(strID, [])])] ∧
    assocGet? (rewriteHeader [] (buildFinalNoPass1 [[(strID, [])]]) false) strRG =
      some [[(strID, [])]] := by
  refine ⟨?_, by decide, by decide⟩
  rw [pass2Step, h]
  simp

/-- Witness for C9: a template whose `ID` override is the empty string
(e.g. from `--tag "ID:"`) leaves a record's tags untouched. -/
theorem claim_C9_empty_id_never_assigned_witness :
    pass2Step false false [] [[(strID, [])]] ⟨"n".data, []⟩ = ⟨"n".data, []⟩ ∧
    buildFinalNoPass1 [[(strID, [])]] = [([], [(strID, [])])] ∧
    assocGet? (rewriteHeader [] (buildFinalNoPass1 [[(strID, [])]]) false) strRG =
      some [[(strID, [])]] :=
  claim_C9_empty_id_never_assigned false false [] [[(strID, [])]] ⟨"n".data, []⟩ (by decide)

/-! ## Claim C10 -/

theorem splitOnceColon_eq_none {t : Str} (h : ':' ∉ t) : splitOnceColon t = none := by
  induction t with
  | nil => rfl
  | cons c s ih =>
    have hc : ¬ c = ':' := fun hc => h (hc ▸ List.mem_cons_self _ _)
    rw [splitOnceColon, if_neg hc, ih (fun hs => h (List.mem_cons_of_mem _ hs))]

theorem splitOnceColon_append (k v : Str) (hk : ':' ∉ k) :
    splitOnceColon (k ++ ':' :: v) = some (k, v) := by
  induction k with
  | nil => simp [splitOnceColon]
  | cons c s ih =>
    have hc : ¬ c = ':' := fun hc => hk (hc ▸ List.mem_cons_self _ _)
    rw [List.cons_append, splitOnceColon, if_neg hc,
      ih (fun hs => hk (List.mem_cons_of_mem _ hs))]

theorem buildExtraTags_skip (pre post : List Str) (t : Str) (hnc : ':' ∉ t) :
    buildExtraTags (pre ++ t :: post) = buildExtraTags (pre ++ post) := by
  simp only [buildExtraTags, List.foldl_append, List.foldl_cons,
    splitOnceColon_eq_none hnc]

theorem dictUpdate_nil (rg : Dict) : dictUpdate rg [] = rg := rfl

theorem dictUpdate_get_of_not_key (rg : Dict) (extra : Dict) (key : Str)
    (h : ∀ p ∈ extra, p.1 ≠ key) :
    assocGet? (dictUpdate rg extra) key = assocGet? rg key := by
  induction extra generalizing rg with
  | nil => rfl
  | cons p rest ih =>
    obtain ⟨k₀, v₀⟩ := p
    simp only [dictUpdate, List.foldl_cons]
    have : assocGet? ((rest.foldl (fun acc kv => assocSet acc kv.1 kv.2)
        (assocSet rg k₀ v₀))) key = assocGet? (assocSet rg k₀ v₀) key :=
      ih (assocSet rg k₀ v₀) (fun p hp => h p (List.mem_cons_of_mem _ hp))
    rw [this, assocGet?_assocSet_ne _ _ _ _ (h (k₀, v₀) (List.mem_cons_self _ _))]

theorem dictUpdate_get_of_get (rg : Dict) (extra : Dict) (key : Str) (val : Str)
    (hnd : extra.Pairwise (fun p q => p.1 ≠ q.1))
    (hget : assocGet? extra key = some val) :
    assocGet? (dictUpdate rg extra) key = some val := by
  induction extra generalizing rg with
  | nil => simp [assocGet?_nil] at hget
  | cons p rest ih =>
    obtain ⟨k₀, v₀⟩ := p
    rcases List.pairwise_cons.mp hnd with ⟨hhead, htail⟩
    simp only [dictUpdate, List.foldl_cons]
    by_cases h0 : k₀ = key
    · subst h0
      rw [assocGet?_cons, if_pos rfl] at hget
      have : ∀ p ∈ rest, p.1 ≠ k₀ := fun p hp => fun he => hhead p hp he.symm
      have hrw := dictUpdate_get_of_not_key (assocSet rg k₀ v₀) rest k₀ this
      simp only [dictUpdate] at hrw
      rw [hrw, assocGet?_assocSet_self]
      exact hget
    · rw [assocGet?_cons, if_neg h0] at hget
      exact ih (assocSet rg k₀ v₀) htail hget

theorem buildExtraTags_pairwiseKeys (tag_strs : List Str) :
    (buildExtraTags tag_strs).Pairwise (fun p q => p.1 ≠ q.1) := by
  have : ∀ (ts : List Str) (acc : Dict), acc.Pairwise (fun p q => p.1 ≠ q.1) →
      (ts.foldl (fun acc t =>
        match splitOnceColon t with
        | some kv => assocSet acc kv.1 kv.2
        | none => acc) acc).Pairwise (fun p q => p.1 ≠ q.1) := by
    intro ts
    induction ts with
    | nil => intro acc h; exact h
    | cons t rest ih =>
      intro acc h
      simp only [List.foldl_cons]
      cases hsp : splitOnceColon t with
      | none => exact ih acc h
      | some kv => exact ih _ (pairwiseKeys_assocSet _ _ h)
  exact this tag_strs [] (by simp)

theorem applyTagOverrides_skip (pre post : List Str) (t : Str) (hnc : ':' ∉ t)
    (rgs : List Dict) :
    applyTagOverrides (pre ++ t :: post) rgs = applyTagOverrides (pre ++ post) rgs := by
  by_cases hpp : pre ++ post = []
  · rcases List.append_eq_nil.mp hpp with ⟨rfl, rfl⟩
    simp only [applyTagOverrides, List.nil_append, if_pos rfl]
    rw [if_neg (by simp)]
    have hb : buildExtraTags [t] = [] := by
      simp [buildExtraTags, splitOnceColon_eq_none hnc]
    simp [hb, dictUpdate_nil]
  · simp only [applyTagOverrides]
    rw [if_neg (by simp), if_neg hpp, buildExtraTags_skip pre post t hnc]

/-- C10: a literal `--tag` override without a colon is merged into no
template and raises no error; one with a colon is split at the first colon
only, so the merged value may itself contain colons; and every surviving
override overwrites any same-named key in every template it is merged
into. -/
theorem claim_C10_tag_override_semantics (pre post : List Str) (t : Str) (hnc : ':' ∉ t)
    (k v : Str) (hk : ':' ∉ k) (tag_strs : List Str) (rg : Dict) (key val : Str)
    (hget : assocGet? (buildExtraTags tag_strs) key = some val) (rgs : List Dict) :
    buildExtraTags (pre ++ t :: post) = buildExtraTags (pre ++ post) ∧
    applyTagOverrides (pre ++ t :: post) rgs = applyTagOverrides (pre ++ post) rgs ∧
    splitOnceColon (k ++ ':' :: v) = some (k, v) ∧
    assocGet? (dictUpdate rg (buildExtraTags tag_strs)) key = some val :=
  ⟨buildExtraTags_skip pre post t hnc,
   applyTagOverrides_skip pre post t hnc rgs,
   splitOnceColon_append k v hk,
   dictUpdate_get_of_get rg (buildExtraTags tag_strs) key val
     (buildExtraTags_pairwiseKeys tag_strs) hget⟩

/-- Witness for C10: the override `"bogus"` (no colon) is dropped, the
override `"PL:x:y"` splits at its first colon keeping `"x:y"` whole, and the
override `"SM:s1"` overwrites the template's `SM`. -/
theorem claim_C10_tag_override_semantics_witness :
    buildExtraTags (["bogus".data] ++ ["SM:s1".data]) = buildExtraTags ([] ++ ["SM:s1".data]) ∧
    applyTagOverrides (["bogus".data] ++ ["SM:s1".data]) [[(strSM, "old".data)]] =
      applyTagOverrides ([] ++ ["SM:s1".data]) [[(strSM, "old".data)]] ∧
    splitOnceColon ("PL".data ++ ':' :: "x:y".data) = some ("PL".data, "x:y".data) ∧
    assocGet? (dictUpdate [(strSM, "old".data)] (buildExtraTags ["SM:s1".data])) strSM =
      some "s1".data := by
  have h := claim_C10_tag_override_semantics ["bogus".data] ["SM:s1".data] "bogus".data
    (by decide) "PL".data "x:y".data (by decide) ["SM:s1".data] [(strSM, "old".data)]
    strSM "s1".data (by decide) [[(strSM, "old".data)]]
  rcases h with ⟨h1, h2, h3, h4⟩
  refine ⟨by simpa using h1, by simpa using h2, h3, h4⟩

/-! ## Claim C7 -/

/-- C7: the rewritten header agrees with the original on every section other
than `RG` and `PG`; its `RG` section is exactly the sorted final read-group
set; `PG` is removed entirely when stripping is requested and is untouched
otherwise.  (`header` models a Python dict, so its keys are unique.) -/
theorem claim_C7_header_frame (header : List (Str × List Dict)) (final : List (Str × Dict))
    (strip_pg : Bool) (k : Str) (hk1 : k ≠ strRG) (hk2 : k ≠ strPG)
    (hnd : header.Pairwise (fun p q => p.1 ≠ q.1)) :
    assocGet? (rewriteHeader header final strip_pg) k = assocGet? header k ∧
    assocGet? (rewriteHeader header final strip_pg) strRG = some (sortedRGs final) ∧
    (strip_pg = true → assocGet? (rewriteHeader header final strip_pg) strPG = none) ∧
    (strip_pg = false →
      assocGet? (rewriteHeader header final strip_pg) strPG = assocGet? header strPG) := by
  have hndh1 : (assocSet header strRG ([] : List Dict)).Pairwise (fun p q => p.1 ≠ q.1) :=
    pairwiseKeys_assocSet _ _ hnd
  have hRGPG : strRG ≠ strPG := by decide
  cases strip_pg with
  | false =>
    simp only [rewriteHeader, Bool.false_and, Bool.false_eq_true, if_false]
    refine ⟨?_, assocGet?_assocSet_self _ _ _, by simp, ?_⟩
    · rw [assocGet?_assocSet_ne _ _ _ _ (Ne.symm hk1),
        assocGet?_assocSet_ne _ _ _ _ (Ne.symm hk1)]
    · intro hfalse
      rw [assocGet?_assocSet_ne _ _ _ _ hRGPG, assocGet?_assocSet_ne _ _ _ _ hRGPG]
  | true =>
    simp only [rewriteHeader, Bool.true_and]
    by_cases hm : assocMem (assocSet header strRG ([] : List Dict)) strPG
    · simp only [hm, if_true]
      refine ⟨?_, assocGet?_assocSet_self _ _ _, ?_, by simp⟩
      · rw [assocGet?_assocSet_ne _ _ _ _ (Ne.symm hk1),
          assocGet?_assocErase_ne _ _ _ (Ne.symm hk2),
          assocGet?_assocSet_ne _ _ _ _ (Ne.symm hk1)]
      · intro htrue
        rw [assocGet?_assocSet_ne _ _ _ _ hRGPG,
          assocGet?_assocErase_self _ _ hndh1]
    · simp only [hm, Bool.false_eq_true, if_false]
      refine ⟨?_, assocGet?_assocSet_self _ _ _, ?_, by simp⟩
      · rw [assocGet?_assocSet_ne _ _ _ _ (Ne.symm hk1),
          assocGet?_assocSet_ne _ _ _ _ (Ne.symm hk1)]
      · intro htrue
        rw [assocGet?_assocSet_ne _ _ _ _ hRGPG]
        simpa [assocMem] using hm

/-- Witness for C7: a three-section header with `--strip-PG` keeps its `SQ`
section, replaces `RG`, and loses `PG`. -/
theorem claim_C7_header_frame_witness :
    assocGet? (rewriteHeader
        [("SQ".data, [[("SN".data, "chr1".data)]]), (strPG, [[(strID, "prog".data)]])]
        [("x".data, [(strID, "x".data)])] true) "SQ".data =
      some [[("SN".data, "chr1".data)]] ∧
    assocGet? (rewriteHeader
        [("SQ".data, [[("SN".data, "chr1".data)]]), (strPG, [[(strID, "prog".data)]])]
        [("x".data, [(strID, "x".data)])] true) strRG =
      some (sortedRGs [("x".data, [(strID, "x".data)])]) ∧
    (true = true → assocGet? (rewriteHeader
        [("SQ".data, [[("SN".data, "chr1".data)]]), (strPG, [[(strID, "prog".data)]])]
        [("x".data, [(strID, "x".data)])] true) strPG = none) := by
  have h := claim_C7_header_frame
    [("SQ".data, [[("SN".data, "chr1".data)]]), (strPG, [[(strID, "prog".data)]])]
    [("x".data, [(strID, "x".data)])] true "SQ".data (by decide) (by decide) (by decide)
  exact ⟨h.1, h.2.1, h.2.2.1⟩

/-! ## Claim C6 -/

theorem mem_pass1Insert {final : List (Str × Dict)} {t : Dict} {fc lane : Str}
    {lb? : Option Str} {p : Str × Dict} (hp : p ∈ pass1Insert final t fc lane lb?) :
    p ∈ final ∨ assocGet? p.2 strID = some p.1 := by
  simp only [pass1Insert] at hp
  split at hp
  · rcases mem_assocSet hp with rfl | hmem
    · right
      simpa using (by assumption : assocGet? _ strID = some _)
    · exact Or.inl hmem
  · exact Or.inl hp

theorem pass1Step_wf {preserve_lb : Bool} {rg_to_lb : Dict} {rgs_data : List Dict}
    {final : List (Str × Dict)} {r : Record}
    (hwf : ∀ p ∈ final, assocGet? p.2 strID = some p.1) :
    ∀ p ∈ pass1Step preserve_lb rg_to_lb rgs_data final r,
      assocGet? p.2 strID = some p.1 := by
  simp only [pass1Step]
  generalize (get_flowcell_lane r.query_name).1 = fc
  generalize (get_flowcell_lane r.query_name).2 = lane
  generalize currentLB preserve_lb rg_to_lb r = lb?
  induction rgs_data generalizing final with
  | nil => exact hwf
  | cons t ts ih =>
    simp only [List.foldl_cons]
    have hnext : ∀ p ∈ pass1Insert final t fc lane lb?, assocGet? p.2 strID = some p.1 := by
      intro p hp
      rcases mem_pass1Insert hp with hmem | hid
      · exact hwf p hmem
      · exact hid
    exact ih hnext

theorem pass1_wf (preserve_lb : Bool) (rg_to_lb : Dict) (rgs_data : List Dict)
    (records : List Record) :
    ∀ p ∈ pass1 preserve_lb rg_to_lb rgs_data records,
      assocGet? p.2 strID = some p.1 := by
  simp only [pass1]
  have : ∀ (recs : List Record) (acc : List (Str × Dict)),
      (∀ p ∈ acc, assocGet? p.2 strID = some p.1) →
      ∀ p ∈ recs.foldl (pass1Step preserve_lb rg_to_lb rgs_data) acc,
        assocGet? p.2 strID = some p.1 := by
    intro recs
    induction recs with
    | nil => intro acc h; exact h
    | cons r rest ih =>
      intro acc h
      simp only [List.foldl_cons]
      exact ih _ (pass1Step_wf h)
  exact this records [] (by simp)

theorem buildFinalNoPass1_wf (rgs_data : List Dict) :
    ∀ p ∈ buildFinalNoPass1 rgs_data, assocGet? p.2 strID = some p.1 := by
  simp only [buildFinalNoPass1]
  have : ∀ (rgs : List Dict) (acc : List (Str × Dict)),
      (∀ p ∈ acc, assocGet? p.2 strID = some p.1) →
      ∀ p ∈ rgs.foldl (fun acc rg =>
          match assocGet? rg strID with
          | some i => assocSet acc i rg
          | none => acc) acc,
        assocGet? p.2 strID = some p.1 := by
    intro rgs
    induction rgs with
    | nil => intro acc h; exact h
    | cons rg rest ih =>
      intro acc h
      simp only [List.foldl_cons]
      refine ih _ ?_
      cases hg : assocGet? rg strID with
      | none => simpa [hg] using h
      | some i =>
        simp only [hg]
        intro p hp
        rcases mem_assocSet hp with rfl | hmem
        · exact hg
        · exact h p hmem
  exact this rgs_data [] (by simp)

theorem rewriteHeader_get_RG (header : List (Str × List Dict)) (final : List (Str × Dict))
    (strip_pg : Bool) :
    assocGet? (rewriteHeader header final strip_pg) strRG = some (sortedRGs final) := by
  rw [rewriteHeader]
  exact assocGet?_assocSet_self _ _ _

/-- C6: every entry of the rewritten header's `RG` section carries an `ID`
attribute, so a template lacking `ID` never appears there as-is; and a
record matched only against such a template in a first pass receives no
assignment, ending in the `"None"` count bucket while the `RG` section
stays empty. -/
theorem claim_C6_no_id_template_unassignable (header : List (Str × List Dict))
    (records : List Record) (rgs_data : List Dict) (preserve_lb strip_pg : Bool) (e : Dict)
    (he : e ∈ assocGetD (process_bam header records rgs_data preserve_lb strip_pg).1 strRG []) :
    assocMem e strID = true ∧
    (process_bam [] [⟨"a:b:f:l".data, []⟩] [[(strSM, phFlowcell)]] false false).2.2 =
      [(strNone, 1)] ∧
    assocGet? (process_bam [] [⟨"a:b:f:l".data, []⟩] [[(strSM, phFlowcell)]] false false).1
      strRG = some [] := by
  refine ⟨?_, by decide, by decide⟩
  simp only [process_bam] at he
  rw [assocGetD, rewriteHeader_get_RG] at he
  simp only [Option.getD_some, sortedRGs] at he
  have hv : e ∈ valuesOf (if (hasPlaceholders rgs_data || preserve_lb) = true then
      pass1 preserve_lb
        (if (hasPlaceholders rgs_data || preserve_lb) && preserve_lb then
          buildRgToLb (assocGetD header strRG []) else [])
        rgs_data records
    else buildFinalNoPass1 rgs_data) := (List.mem_insertionSort _).mp he
  rw [valuesOf] at hv
  rcases List.mem_map.mp hv with ⟨p, hpmem, rfl⟩
  by_cases hnp : (hasPlaceholders rgs_data || preserve_lb) = true
  · rw [if_pos hnp] at hpmem
    have := pass1_wf _ _ _ _ p hpmem
    simp [assocMem, this]
  · rw [if_neg hnp] at hpmem
    have := buildFinalNoPass1_wf _ p hpmem
    simp [assocMem, this]

/-- Witness for C6: with the literal template `{ID: "x"}` the emitted `RG`
entry indeed carries an `ID`. -/
theorem claim_C6_no_id_template_unassignable_witness :
    assocMem [(strID, "x".data)] strID = true ∧
    (process_bam [] [⟨"a:b:f:l".data, []⟩] [[(strSM, phFlowcell)]] false false).2.2 =
      [(strNone, 1)] ∧
    assocGet? (process_bam [] [⟨"a:b:f:l".data, []⟩] [[(strSM, phFlowcell)]] false false).1
      strRG = some [] :=
  claim_C6_no_id_template_unassignable [] [] [[(strID, "x".data)]] false false
    [(strID, "x".data)] (by decide)

/-! ## Claim C4 -/

theorem strLeb_cons_iff (a b : Char) (s t : Str) :
    strLeb (a :: s) (b :: t) = true ↔ a < b ∨ (a = b ∧ strLeb s t = true) := by
  by_cases h1 : a < b
  · simp [strLeb, h1]
  · by_cases h2 : b < a
    · have hne : ¬ a = b := fun he => absurd (he ▸ h2) (lt_irrefl a)
      simp [strLeb, h1, h2, hne]
    · have heq : a = b := le_antisymm (not_lt.mp h2) (not_lt.mp h1)
      simp [strLeb, h1, h2, heq]

theorem strLeb_total : ∀ a b : Str, strLeb a b = true ∨ strLeb b a = true
  | [], _ => Or.inl rfl
  | _ :: _, [] => Or.inr rfl
  | a :: s, b :: t => by
    rcases lt_trichotomy a b with h | h | h
    · exact Or.inl ((strLeb_cons_iff a b s t).mpr (Or.inl h))
    · rcases strLeb_total s t with hs | hs
      · exact Or.inl ((strLeb_cons_iff a b s t).mpr (Or.inr ⟨h, hs⟩))
      · exact Or.inr ((strLeb_cons_iff b a t s).mpr (Or.inr ⟨h.symm, hs⟩))
    · exact Or.inr ((strLeb_cons_iff b a t s).mpr (Or.inl h))

theorem strLeb_trans : ∀ {a b c : Str},
    strLeb a b = true → strLeb b c = true → strLeb a c = true
  | [], _, _, _, _ => rfl
  | a :: s, [], c, hab, _ => by simp [strLeb] at hab
  | a :: s, b :: t, [], _, hbc => by simp [strLeb] at hbc
  | a :: s, b :: t, c :: u, hab, hbc => by
    rcases (strLeb_cons_iff a b s t).mp hab with h1 | ⟨rfl, h1⟩
    · rcases (strLeb_cons_iff b c t u).mp hbc with h2 | ⟨rfl, h2⟩
      · exact (strLeb_cons_iff a c s u).mpr (Or.inl (lt_trans h1 h2))
      · exact (strLeb_cons_iff a b s u).mpr (Or.inl h1)
    · rcases (strLeb_cons_iff a c t u).mp hbc with h2 | ⟨rfl, h2⟩
      · exact (strLeb_cons_iff a c s u).mpr (Or.inl h2)
      · exact (strLeb_cons_iff a a s u).mpr (Or.inr ⟨rfl, strLeb_trans h1 h2⟩)

theorem strLeb_antisymm : ∀ {a b : Str},
    strLeb a b = true → strLeb b a = true → a = b
  | [], [], _, _ => rfl
  | [], _ :: _, _, hba => by simp [strLeb] at hba
  | _ :: _, [], hab, _ => by simp [strLeb] at hab
  | a :: s, b :: t, hab, hba => by
    rcases (strLeb_cons_iff a b s t).mp hab with h1 | ⟨rfl, h1⟩
    · rcases (strLeb_cons_iff b a t s).mp hba with h2 | ⟨rfl, h2⟩
      · exact absurd h1 (lt_asymm h2)
      · exact absurd h1 (lt_irrefl _)
    · rcases (strLeb_cons_iff a a t s).mp hba with h2 | ⟨he, h2⟩
      · exact absurd h2 (lt_irrefl _)
      · rw [strLeb_antisymm h1 h2]

theorem tripLeb_total (p q : Str × Str × Str) : tripLeb p q = true ∨ tripLeb q p = true := by
  rw [tripLeb, tripLeb]
  by_cases h1 : p.1 = q.1
  · rw [if_pos h1, if_pos h1.symm]
    by_cases h2 : p.2.1 = q.2.1
    · rw [if_pos h2, if_pos h2.symm]
      exact strLeb_total _ _
    · rw [if_neg h2, if_neg (fun he => h2 he.symm)]
      exact strLeb_total _ _
  · rw [if_neg h1, if_neg (fun he => h1 he.symm)]
    exact strLeb_total _ _

theorem tripLeb_antisymm {p q : Str × Str × Str}
    (hpq : tripLeb p q = true) (hqp : tripLeb q p = true) : p = q := by
  rw [tripLeb] at hpq hqp
  by_cases h1 : p.1 = q.1
  · rw [if_pos h1] at hpq
    rw [if_pos h1.symm] at hqp
    by_cases h2 : p.2.1 = q.2.1
    · rw [if_pos h2] at hpq
      rw [if_pos h2.symm] at hqp
      have h3 := strLeb_antisymm hpq hqp
      obtain ⟨pa, pb, pc⟩ := p
      obtain ⟨qa, qb, qc⟩ := q
      simp only at h1 h2 h3
      rw [h1, h2, h3]
    · rw [if_neg h2] at hpq
      rw [if_neg (fun he => h2 he.symm)] at hqp
      exact absurd (strLeb_antisymm hpq hqp) h2
  · rw [if_neg h1] at hpq
    rw [if_neg (fun he => h1 he.symm)] at hqp
    exact absurd (strLeb_antisymm hpq hqp) h1

theorem tripLeb_trans {p q u : Str × Str × Str}
    (hpq : tripLeb p q = true) (hqu : tripLeb q u = true) : tripLeb p u = true := by
  by_cases h1 : p.1 = q.1
  · by_cases h2 : q.1 = u.1
    · rw [tripLeb, if_pos h1] at hpq
      rw [tripLeb, if_pos h2] at hqu
      rw [tripLeb, if_pos (h1.trans h2)]
      by_cases h3 : p.2.1 = q.2.1
      · by_cases h4 : q.2.1 = u.2.1
        · rw [if_pos h3] at hpq
          rw [if_pos h4] at hqu
          rw [if_pos (h3.trans h4)]
          exact strLeb_trans hpq hqu
        · rw [if_pos h3] at hpq
          rw [if_neg h4] at hqu
          rw [if_neg (h3 ▸ h4)]
          exact h3 ▸ hqu
      · by_cases h4 : q.2.1 = u.2.1
        · rw [if_neg h3] at hpq
          rw [if_neg (fun he => h3 (he.trans h4.symm))]
          exact h4 ▸ hpq
        · rw [if_neg h3] at hpq
          rw [if_neg h4] at hqu
          by_cases h5 : p.2.1 = u.2.1
          · have hqp : strLeb q.2.1 p.2.1 = true := by rw [h5]; exact hqu
            exact absurd (strLeb_antisymm hpq hqp) h3
          · rw [if_neg h5]
            exact strLeb_trans hpq hqu
    · rw [tripLeb, if_pos h1] at hpq
      rw [tripLeb, if_neg h2] at hqu
      rw [tripLeb, if_neg (h1 ▸ h2)]
      exact h1 ▸ hqu
  · by_cases h2 : q.1 = u.1
    · rw [tripLeb, if_neg h1] at hpq
      rw [tripLeb, if_neg (fun he => h1 (he.trans h2.symm))]
      exact h2 ▸ hpq
    · rw [tripLeb, if_neg h1] at hpq
      rw [tripLeb, if_neg h2] at hqu
      by_cases h5 : p.1 = u.1
      · have hqp : strLeb q.1 p.1 = true := by rw [h5]; exact hqu
        exact absurd (strLeb_antisymm hpq hqp) h1
      · rw [tripLeb, if_neg h5]
        exact strLeb_trans hpq hqu

theorem values_sortKey_ne (m : List (Str × Dict))
    (hnd : m.Pairwise (fun p q => p.1 ≠ q.1))
    (hwf : ∀ p ∈ m, assocGet? p.2 strID = some p.1) :
    (valuesOf m).Pairwise (fun x y => sortKey x ≠ sortKey y) := by
  rw [valuesOf, List.pairwise_map]
  refine List.Pairwise.imp_of_mem ?_ hnd
  intro p q hpm hqm hne he
  apply hne
  have h1 : assocGetD p.2 strID [] = p.1 := by rw [assocGetD, hwf p hpm]; rfl
  have h2 : assocGetD q.2 strID [] = q.1 := by rw [assocGetD, hwf q hqm]; rfl
  have h3 := congrArg (fun t : Str × Str × Str => t.2.2) he
  simp only [sortKey] at h3
  rw [h1, h2] at h3
  exact h3

/-- C4: the `RG` section of the rewritten header is exactly the final set's
values sorted ascending by the `(SM, LB, ID)` tuple with empty-string
fallback (a permutation of the values that is pairwise ordered), and —
because a final set keyed by `ID` has pairwise-distinct sort keys — the
emitted section is identical for any two final sets holding the same
entries in any supply order. -/
theorem claim_C4_header_sorted_and_order_independent (m₁ m₂ : List (Str × Dict))
    (hp : m₁.Perm m₂)
    (hnd : m₁.Pairwise (fun p q => p.1 ≠ q.1))
    (hwf : ∀ p ∈ m₁, assocGet? p.2 strID = some p.1)
    (header : List (Str × List Dict)) (strip_pg : Bool) :
    assocGet? (rewriteHeader header m₁ strip_pg) strRG = some (sortedRGs m₁) ∧
    (sortedRGs m₁).Pairwise (fun x y => tripLeb (sortKey x) (sortKey y) = true) ∧
    (sortedRGs m₁).Perm (valuesOf m₁) ∧
    sortedRGs m₁ = sortedRGs m₂ := by
  haveI htot : IsTotal Dict (fun x y => tripLeb (sortKey x) (sortKey y) = true) :=
    ⟨fun a b => tripLeb_total _ _⟩
  haveI htr : IsTrans Dict (fun x y => tripLeb (sortKey x) (sortKey y) = true) :=
    ⟨fun a b c hab hbc => tripLeb_trans hab hbc⟩
  have hnd₂ : m₂.Pairwise (fun p q => p.1 ≠ q.1) :=
    (hp.pairwise_iff (fun hxy => fun he => hxy he.symm)).mp hnd
  have hwf₂ : ∀ p ∈ m₂, assocGet? p.2 strID = some p.1 :=
    fun p hm => hwf p (hp.mem_iff.mpr hm)
  have hvperm : (valuesOf m₁).Perm (valuesOf m₂) := hp.map Prod.snd
  have hs₁ : (sortedRGs m₁).Pairwise (fun x y => tripLeb (sortKey x) (sortKey y) = true) := by
    rw [sortedRGs]
    exact List.sorted_insertionSort _ _
  have hs₂ : (sortedRGs m₂).Pairwise (fun x y => tripLeb (sortKey x) (sortKey y) = true) := by
    rw [sortedRGs]
    exact List.sorted_insertionSort _ _
  have hperm₁ : (sortedRGs m₁).Perm (valuesOf m₁) := by
    rw [sortedRGs]
    exact List.perm_insertionSort _ _
  have hperm₂ : (sortedRGs m₂).Perm (valuesOf m₂) := by
    rw [sortedRGs]
    exact List.perm_insertionSort _ _
  have hsortperm : (sortedRGs m₁).Perm (sortedRGs m₂) :=
    hperm₁.trans (hvperm.trans hperm₂.symm)
  have hne₁ : (sortedRGs m₁).Pairwise (fun x y => sortKey x ≠ sortKey y) :=
    (hperm₁.pairwise_iff (fun hxy => fun he => hxy he.symm)).mpr
      (values_sortKey_ne m₁ hnd hwf)
  have hne₂ : (sortedRGs m₂).Pairwise (fun x y => sortKey x ≠ sortKey y) :=
    (hperm₂.pairwise_iff (fun hxy => fun he => hxy he.symm)).mpr
      (values_sortKey_ne m₂ hnd₂ hwf₂)
  have hstrict₁ : (sortedRGs m₁).Pairwise
      (fun x y => ¬ tripLeb (sortKey y) (sortKey x) = true) :=
    hs₁.imp₂ (fun a b hle hne hba => hne (tripLeb_antisymm hle hba)) hne₁
  have hstrict₂ : (sortedRGs m₂).Pairwise
      (fun x y => ¬ tripLeb (sortKey y) (sortKey x) = true) :=
    hs₂.imp₂ (fun a b hle hne hba => hne (tripLeb_antisymm hle hba)) hne₂
  haveI : IsAntisymm Dict (fun x y => ¬ tripLeb (sortKey y) (sortKey x) = true) :=
    ⟨fun a b hab hba => by
      rcases tripLeb_total (sortKey a) (sortKey b) with h | h
      · exact absurd h hba
      · exact absurd h hab⟩
  exact ⟨rewriteHeader_get_RG header m₁ strip_pg, hs₁, hperm₁,
    List.eq_of_perm_of_sorted hsortperm hstrict₁ hstrict₂⟩

/-- Witness for C4: two entry orders of the same two-group final set yield
one and the same sorted `RG` section. -/
theorem claim_C4_header_sorted_and_order_independent_witness :
    assocGet? (rewriteHeader []
        [("b".data, [(strID, "b".data)]), ("a".data, [(strID, "a".data)])] false) strRG =
      some (sortedRGs [("b".data, [(strID, "b".data)]), ("a".data, [(strID, "a".data)])]) ∧
    (sortedRGs [("b".data, [(strID, "b".data)]), ("a".data, [(strID, "a".data)])]).Pairwise
      (fun x y => tripLeb (sortKey x) (sortKey y) = true) ∧
    (sortedRGs [("b".data, [(strID, "b".data)]), ("a".data, [(strID, "a".data)])]).Perm
      (valuesOf [("b".data, [(strID, "b".data)]), ("a".data, [(strID, "a".data)])]) ∧
    sortedRGs [("b".data, [(strID, "b".data)]), ("a".data, [(strID, "a".data)])] =
      sortedRGs [("a".data, [(strID, "a".data)]), ("b".data, [(strID, "b".data)])] :=
  claim_C4_header_sorted_and_order_independent
    [("b".data, [(strID, "b".data)]), ("a".data, [(strID, "a".data)])]
    [("a".data, [(strID, "a".data)]), ("b".data, [(strID, "b".data)])]
    (by decide) (by decide) (by decide) [] false

/-! ## Claim C1 -/

/-- The sequence of upserts one record contributes during the first pass:
for every template, in order, the key and mapping that `pass1Insert` would
register for this record (obtained by running it on the empty mapping),
dropped when the resolved mapping has no `ID`. -/
def recordWrites (preserve_lb : Bool) (rg_to_lb : Dict) (rgs_data : List Dict)
    (r : Record) : List (Str × Dict) :=
  rgs_data.filterMap (fun t =>
    (pass1Insert [] t (get_flowcell_lane r.query_name).1 (get_flowcell_lane r.query_name).2
      (currentLB preserve_lb rg_to_lb r)).head?)

theorem upsert_head (final : List (Str × Dict)) (R : Dict) :
    (match assocGet? R strID with
     | some i => assocSet final i R
     | none => final) =
      match (match assocGet? R strID with
             | some i => assocSet ([] : List (Str × Dict)) i R
             | none => ([] : List (Str × Dict))).head? with
      | some p => assocSet final p.1 p.2
      | none => final := by
  cases hg : assocGet? R strID <;> simp [hg, assocSet_nil]

theorem pass1Insert_eq_head (final : List (Str × Dict)) (t : Dict) (fc lane : Str)
    (lb? : Option Str) :
    pass1Insert final t fc lane lb? =
      match (pass1Insert [] t fc lane lb?).head? with
      | some p => assocSet final p.1 p.2
      | none => final := by
  simp only [pass1Insert]
  exact upsert_head final _

theorem pass1Step_eq_writes_fold (preserve_lb : Bool) (rg_to_lb : Dict)
    (rgs_data : List Dict) (final : List (Str × Dict)) (r : Record) :
    pass1Step preserve_lb rg_to_lb rgs_data final r =
      (recordWrites preserve_lb rg_to_lb rgs_data r).foldl
        (fun a p => assocSet a p.1 p.2) final := by
  simp only [pass1Step, recordWrites]
  induction rgs_data generalizing final with
  | nil => rfl
  | cons t ts ih =>
    simp only [List.foldl_cons, List.filterMap_cons]
    rw [pass1Insert_eq_head final t]
    cases hh : (pass1Insert [] t (get_flowcell_lane r.query_name).1
        (get_flowcell_lane r.query_name).2 (currentLB preserve_lb rg_to_lb r)).head? with
    | none => exact ih final
    | some p =>
      simp only [List.foldl_cons]
      exact ih _

theorem pass1_eq_writes_fold (preserve_lb : Bool) (rg_to_lb : Dict) (rgs_data : List Dict)
    (records : List Record) :
    pass1 preserve_lb rg_to_lb rgs_data records =
      (records.flatMap (recordWrites preserve_lb rg_to_lb rgs_data)).foldl
        (fun a p => assocSet a p.1 p.2) [] := by
  rw [pass1]
  have : ∀ (recs : List Record) (acc : List (Str × Dict)),
      recs.foldl (pass1Step preserve_lb rg_to_lb rgs_data) acc =
        (recs.flatMap (recordWrites preserve_lb rg_to_lb rgs_data)).foldl
          (fun a p => assocSet a p.1 p.2) acc := by
    intro recs
    induction recs with
    | nil => intro acc; rfl
    | cons r rest ih =>
      intro acc
      simp only [List.foldl_cons, List.flatMap_cons, List.foldl_append]
      rw [pass1Step_eq_writes_fold]
      exact ih _
  exact this records []

theorem get_foldl_set_mem {ws : List (Str × Dict)} {acc : List (Str × Dict)} {k : Str}
    {v : Dict} (h : assocGet? (ws.foldl (fun a p => assocSet a p.1 p.2) acc) k = some v) :
    (k, v) ∈ ws ∨ assocGet? acc k = some v := by
  induction ws generalizing acc with
  | nil => exact Or.inr h
  | cons p rest ih =>
    simp only [List.foldl_cons] at h
    rcases ih h with hmem | hacc
    · exact Or.inl (List.mem_cons_of_mem _ hmem)
    · by_cases hk : p.1 = k
      · rw [← hk, assocGet?_assocSet_self] at hacc
        obtain ⟨p1, p2⟩ := p
        simp only at hk hacc
        left
        rw [← hk]
        injection hacc with hv
        rw [← hv]
        exact List.mem_cons_self _ _
      · rw [assocGet?_assocSet_ne _ _ _ _ hk] at hacc
        exact Or.inr hacc

theorem get_foldl_set_isSome {ws : List (Str × Dict)} {acc : List (Str × Dict)} {k : Str}
    (h : (∃ v, (k, v) ∈ ws) ∨ (assocGet? acc k).isSome = true) :
    (assocGet? (ws.foldl (fun a p => assocSet a p.1 p.2) acc) k).isSome = true := by
  induction ws generalizing acc with
  | nil =>
    rcases h with ⟨v, hv⟩ | h
    · simp at hv
    · exact h
  | cons p rest ih =>
    simp only [List.foldl_cons]
    rcases h with ⟨v, hv⟩ | h
    · rcases List.mem_cons.mp hv with he | hmem
      · refine ih (Or.inr ?_)
        rw [← he]
        simp only
        rw [assocGet?_assocSet_self]
        rfl
      · exact ih (Or.inl ⟨v, hmem⟩)
    · refine ih (Or.inr ?_)
      exact isSome_assocGet?_assocSet _ _ _ _ h

theorem get_foldl_set_consistent {ws : List (Str × Dict)}
    (H : ∀ p ∈ ws, ∀ q ∈ ws, p.1 = q.1 → p.2 = q.2) (k : Str) (v : Dict) :
    assocGet? (ws.foldl (fun a p => assocSet a p.1 p.2) []) k = some v ↔ (k, v) ∈ ws := by
  constructor
  · intro h
    rcases get_foldl_set_mem h with hm | hacc
    · exact hm
    · simp [assocGet?_nil] at hacc
  · intro hm
    have hs := @get_foldl_set_isSome ws [] k (Or.inl ⟨v, hm⟩)
    obtain ⟨w, hw⟩ := Option.isSome_iff_exists.mp hs
    rcases get_foldl_set_mem hw with hm2 | hacc
    · rw [hw]
      have := H _ hm2 _ hm rfl
      simp only at this
      rw [this]
    · simp [assocGet?_nil] at hacc

/-- C1 counterexample: with the template `{ID: "x", SM: "[FLOWCELL]"}` the
records named `"a:b:f1:l1"` and `"a:b:f2:l1"` both upsert under the resolved
key `"x"` but with different attribute mappings (`SM = "f1"` vs `SM = "f2"`),
and reordering the two-record stream changes the first pass's final set. -/
theorem claim_C1_counterexample :
    (pass1Insert [] [(strID, "x".data), (strSM, phFlowcell)] "f1".data "l1".data none =
      [("x".data, [(strID, "x".data), (strSM, "f1".data)])]) ∧
    (pass1Insert [] [(strID, "x".data), (strSM, phFlowcell)] "f2".data "l1".data none =
      [("x".data, [(strID, "x".data), (strSM, "f2".data)])]) ∧
    assocGet? (pass1 false [] [[(strID, "x".data), (strSM, phFlowcell)]]
        [⟨"a:b:f1:l1".data, []⟩, ⟨"a:b:f2:l1".data, []⟩]) "x".data ≠
      assocGet? (pass1 false [] [[(strID, "x".data), (strSM, phFlowcell)]]
        [⟨"a:b:f2:l1".data, []⟩, ⟨"a:b:f1:l1".data, []⟩]) "x".data := by
  decide

/-- C1 as amended: *if* all first-pass upserts for the given template list
and record stream are key-determined (any two writes under the same resolved
`ID` carry identical mappings — the spec asserts this holds by construction,
which the counterexample refutes), then the first pass's final set, read as
a key-to-mapping function, is the same for every permutation of the record
stream. -/
theorem claim_C1_amended_order_independence (preserve_lb : Bool) (rg_to_lb : Dict)
    (rgs_data : List Dict) (l₁ l₂ : List Record) (hp : l₁.Perm l₂)
    (H : ∀ r₁ ∈ l₁, ∀ r₂ ∈ l₁, ∀ p ∈ recordWrites preserve_lb rg_to_lb rgs_data r₁,
        ∀ q ∈ recordWrites preserve_lb rg_to_lb rgs_data r₂, p.1 = q.1 → p.2 = q.2)
    (k : Str) :
    assocGet? (pass1 preserve_lb rg_to_lb rgs_data l₁) k =
      assocGet? (pass1 preserve_lb rg_to_lb rgs_data l₂) k := by
  have H₁ : ∀ p ∈ l₁.flatMap (recordWrites preserve_lb rg_to_lb rgs_data),
      ∀ q ∈ l₁.flatMap (recordWrites preserve_lb rg_to_lb rgs_data),
      p.1 = q.1 → p.2 = q.2 := by
    intro p hpm q hqm
    rcases List.mem_flatMap.mp hpm with ⟨r₁, hr₁, hpw⟩
    rcases List.mem_flatMap.mp hqm with ⟨r₂, hr₂, hqw⟩
    exact H r₁ hr₁ r₂ hr₂ p hpw q hqw
  have H₂ : ∀ p ∈ l₂.flatMap (recordWrites preserve_lb rg_to_lb rgs_data),
      ∀ q ∈ l₂.flatMap (recordWrites preserve_lb rg_to_lb rgs_data),
      p.1 = q.1 → p.2 = q.2 := by
    intro p hpm q hqm
    rcases List.mem_flatMap.mp hpm with ⟨r₁, hr₁, hpw⟩
    rcases List.mem_flatMap.mp hqm with ⟨r₂, hr₂, hqw⟩
    exact H r₁ (hp.mem_iff.mpr hr₁) r₂ (hp.mem_iff.mpr hr₂) p hpw q hqw
  have hmem : ∀ p : Str × Dict,
      p ∈ l₁.flatMap (recordWrites preserve_lb rg_to_lb rgs_data) ↔
      p ∈ l₂.flatMap (recordWrites preserve_lb rg_to_lb rgs_data) := by
    intro p
    rw [List.mem_flatMap, List.mem_flatMap]
    constructor
    · rintro ⟨r, hr, hw⟩
      exact ⟨r, hp.mem_iff.mp hr, hw⟩
    · rintro ⟨r, hr, hw⟩
      exact ⟨r, hp.mem_iff.mpr hr, hw⟩
  rw [pass1_eq_writes_fold, pass1_eq_writes_fold]
  cases hv : assocGet?
      ((l₁.flatMap (recordWrites preserve_lb rg_to_lb rgs_data)).foldl
        (fun a p => assocSet a p.1 p.2) []) k with
  | some v =>
    have h1 := (get_foldl_set_consistent H₁ k v).mp hv
    have h2 := (hmem (k, v)).mp h1
    exact ((get_foldl_set_consistent H₂ k v).mpr h2).symm
  | none =>
    cases hw : assocGet?
        ((l₂.flatMap (recordWrites preserve_lb rg_to_lb rgs_data)).foldl
          (fun a p => assocSet a p.1 p.2) []) k with
    | none => rfl
    | some w =>
      have h2 := (get_foldl_set_consistent H₂ k w).mp hw
      have h1 := (hmem (k, w)).mpr h2
      have := (get_foldl_set_consistent H₁ k w).mpr h1
      rw [this] at hv
      exact absurd hv (by simp)

/-- Witness for the amended C1: with the template `{ID: "[FLOWCELL]"}` all
writes are key-determined, and swapping two records leaves the lookup of
`"f1"` unchanged. -/
theorem claim_C1_amended_order_independence_witness :
    assocGet? (pass1 false [] [[(strID, phFlowcell)]]
        [⟨"a:b:f1:l1".data, []⟩, ⟨"a:b:f2:l2".data, []⟩]) "f1".data =
      assocGet? (pass1 false [] [[(strID, phFlowcell)]]
        [⟨"a:b:f2:l2".data, []⟩, ⟨"a:b:f1:l1".data, []⟩]) "f1".data :=
  claim_C1_amended_order_independence false [] [[(strID, phFlowcell)]]
    [⟨"a:b:f1:l1".data, []⟩, ⟨"a:b:f2:l2".data, []⟩]
    [⟨"a:b:f2:l2".data, []⟩, ⟨"a:b:f1:l1".data, []⟩]
    (by decide) (by decide) "f1".data
